import Mathlib

/-
Verification development for the pylm work-dispatch runtime.

Shallow embedding of:
  * the broker event loop (class Broker in tests/test_feedback.py:
    register_inbound, register_outbound, start);
  * the PushPullService component (pylm_ng/components/services.py:
    _translate_to_broker, _translate_from_broker, scatter,
    handle_feedback, reply_feedback, start, cleanup).

Bytes on the wire are modelled symbolically: a byte string is either a
raw string, a serialized BrokerMessage, or a serialized PalmMessage.
The protobuf codec (messages_pb2, generated code not present in the
repository) is modelled from the spec: serialization is injective and
parse after serialize is the identity, which is exactly the round-trip
contract the spec states for the codec.
-/

/-- Symbolic byte strings: raw bytes, or a serialized protobuf message.
Modelled from the spec: the codec is a deterministic encoding with
round-trip invariant, so serialized messages are represented by their
field contents. -/
inductive Bytes where
  | raw : String → Bytes
  | brokerMsg : String → Bytes → Bytes
  | palmMsg : String → String → String → String → Bytes → Bytes
deriving DecidableEq, Repr

/-- BrokerMessage protobuf: field 1 key (text), field 2 payload (bytes). -/
structure BrokerMessage where
  key : String
  payload : Bytes
deriving DecidableEq, Repr

def BrokerMessage.SerializeToString (m : BrokerMessage) : Bytes :=
  Bytes.brokerMsg m.key m.payload

def BrokerMessage.ParseFromString : Bytes → Option BrokerMessage
  | Bytes.brokerMsg k p => some ⟨k, p⟩
  | _ => none

/-- PalmMessage (Client Envelope): routing fields plus a payload. -/
structure PalmMessage where
  client : String
  pipeline : String
  function : String
  stage : String
  payload : Bytes
deriving DecidableEq, Repr

def PalmMessage.SerializeToString (m : PalmMessage) : Bytes :=
  Bytes.palmMsg m.client m.pipeline m.function m.stage m.payload

def PalmMessage.ParseFromString : Bytes → Option PalmMessage
  | Bytes.palmMsg c pl f st p => some ⟨c, pl, f, st, p⟩
  | _ => none

/-- Association-list lookup, modelling python dict membership and
subscript access. -/
def lookupA {α : Type} : List (String × α) → String → Option α
  | [], _ => none
  | (k, v) :: rest, k0 => if k = k0 then some v else lookupA rest k0

/-- Association-list removal, modelling dict.pop. -/
def eraseA {α : Type} (l : List (String × α)) (k : String) : List (String × α) :=
  l.filter (fun p => p.1 ≠ k)

/-- Association-list write, modelling dict subscript assignment: an
existing key is overwritten in place, a new key is appended. -/
def insertA {α : Type} (l : List (String × α)) (k : String) (v : α) :
    List (String × α) :=
  if (lookupA l k).isSome then
    l.map (fun p => if p.1 = k then (k, v) else p)
  else
    l ++ [(k, v)]

/-- Inbound registration record held by the broker
(Broker.register_inbound). -/
structure Registration where
  route : String
  block : Bool
  log : String
deriving DecidableEq, Repr

/-- Broker state: registrations, FIFO list of available outbound
workers, ledger of pending blocked inbounds, single-slot buffer, and
whether the inbound socket is registered with the poller
(Broker.__init__ registers only the outbound socket). -/
structure BrokerState where
  inbound_components : List (String × Registration)
  available : List String
  ledger : List (String × String)
  buffer : List (String × Bytes)
  inboundRegistered : Bool
deriving DecidableEq, Repr

/-- The broker state right after Broker.__init__ plus registrations:
empty ledger and buffer, no available workers yet, inbound socket not
registered with the poller. -/
def BrokerState.initial (regs : List (String × Registration)) : BrokerState :=
  { inbound_components := regs
    available := []
    ledger := []
    buffer := []
    inboundRegistered := false }

/-- Observable side effects of one broker iteration. -/
inductive BAction where
  | sendOutbound : String → Bytes → BAction
  | sendInbound : String → Bytes → BAction
  | logCritical : String → BAction
  | close : String → BAction
deriving DecidableEq, Repr

/-- Uncaught python exceptions of the event loop. -/
inductive StepError where
  | decodeError : StepError
  | keyError : String → StepError
deriving DecidableEq, Repr

/-- BrokerMessage.ParseFromString as used by the loop: a malformed
envelope raises a decode error. -/
def parseBroker (b : Bytes) : Except StepError BrokerMessage :=
  match BrokerMessage.ParseFromString b with
  | some m => Except.ok m
  | none => Except.error StepError.decodeError

/-- One event observed by the poller: an outbound component sent
feedback, an inbound component sent a request, or the polled socket is
not known. -/
inductive Event where
  | outbound : String → Bytes → Event
  | inbound : String → Bytes → Event
  | unknownSocket : Event
deriving DecidableEq, Repr

/-- The outbound branch of Broker.start: pop the buffered message for
this worker if any, else append the worker to available; answer a
ledgered key by sending the feedback payload to the blocked inbound;
re-register the inbound socket when workers are available and both
buffer and ledger are empty. -/
def handleOutbound (s : BrokerState) (component : String) (feedback : Bytes) :
    Except StepError (BrokerState × List BAction) :=
  match parseBroker feedback with
  | Except.error err => Except.error err
  | Except.ok bm =>
  let step1 :=
    match lookupA s.buffer component with
    | some message_data =>
        ({ s with buffer := eraseA s.buffer component },
         [BAction.sendOutbound component message_data])
    | none =>
        ({ s with available := s.available ++ [component] },
         ([] : List BAction))
  let s1 := step1.1
  let step2 :=
    match lookupA s1.ledger bm.key with
    | some dest =>
        ({ s1 with ledger := eraseA s1.ledger bm.key },
         [BAction.sendInbound dest bm.payload])
    | none => (s1, ([] : List BAction))
  let s2 := step2.1
  let s3 :=
    if !s2.available.isEmpty && s2.buffer.isEmpty && s2.ledger.isEmpty then
      { s2 with inboundRegistered := true }
    else s2
  Except.ok (s3, step1.2 ++ step2.2)

/-- The inbound branch of Broker.start: look up the sender's
registration (a dict access that raises KeyError when absent); an
empty route is acknowledged at once; a route to an available worker is
dispatched, acknowledging a non-blocking sender and ledgering plus
suspending a blocking one; a route to a busy worker is written to the
single-slot buffer and the inbound side is suspended. -/
def handleInbound (s : BrokerState) (component : String) (message_data : Bytes) :
    Except StepError (BrokerState × List BAction) :=
  match parseBroker message_data with
  | Except.error err => Except.error err
  | Except.ok bm =>
  match lookupA s.inbound_components component with
  | none => Except.error (StepError.keyError component)
  | some reg =>
    let route_to := reg.route
    let block := reg.block
    if route_to = "" then
      Except.ok (s, [BAction.sendInbound component (Bytes.raw "1")])
    else if route_to ∈ s.available then
      let s1 := { s with available := s.available.erase route_to }
      let dispatch := BAction.sendOutbound route_to bm.SerializeToString
      if !block then
        Except.ok (s1, [dispatch, BAction.sendInbound component (Bytes.raw "1")])
      else
        Except.ok
          ({ s1 with
              ledger := insertA s1.ledger bm.key component
              inboundRegistered := false },
           [dispatch])
    else
      Except.ok
        ({ s with
            buffer := insertA s.buffer route_to bm.SerializeToString
            inboundRegistered := false },
         ([] : List BAction))

/-- One iteration of the broker event loop body. -/
def brokerStep (s : BrokerState) : Event →
    Except StepError (BrokerState × List BAction)
  | Event.outbound c f => handleOutbound s c f
  | Event.inbound c m => handleInbound s c m
  | Event.unknownSocket => Except.ok (s, [BAction.logCritical "Socket not known."])

/-- An event the poller can actually deliver: inbound events only while
the inbound socket is registered. -/
def Event.admissible (s : BrokerState) : Event → Bool
  | Event.inbound _ _ => s.inboundRegistered
  | _ => true

/-- Broker.start's loop, running for a given number of iterations over a
queue of pending events; an uncaught exception aborts the loop. Returns
the final state, the accumulated actions and the events left unconsumed. -/
def brokerRun (s : BrokerState) (events : List Event) :
    Nat → Except StepError (BrokerState × List BAction × List Event)
  | 0 => Except.ok (s, [], events)
  | Nat.succ n =>
    match events with
    | [] => Except.ok (s, [], [])
    | e :: rest =>
      match brokerStep s e with
      | Except.error err => Except.error err
      | Except.ok (s1, acts) =>
        match brokerRun s1 rest n with
        | Except.error err => Except.error err
        | Except.ok (s2, acts2, rem) => Except.ok (s2, acts ++ acts2, rem)

/-- The suspension invariant of the broker: whenever the ledger or the
single-slot buffer is non-empty, the inbound socket is not registered
with the poller. -/
def suspended (s : BrokerState) : Prop :=
  (s.buffer ≠ [] ∨ s.ledger ≠ []) → s.inboundRegistered = false

/-- State of a PushPullService component: the correlation cache it was
handed (cache.set, cache.get) and the supply index of the next uuid4
draw. -/
structure PPState where
  cache : List (String × Bytes)
  uuidCounter : Nat
deriving DecidableEq, Repr

/-- Modelled from the spec: uuid4 draws a globally unique opaque
identifier rendered as text; modelled as an injective supply indexed by
how many draws happened before. -/
def uuid4 : Nat → String
  | 0 => "u"
  | Nat.succ n => "u" ++ uuid4 n

/-- PushPullService._translate_to_broker: allocate a fresh key; if the
component is configured as PALM, parse the client envelope, take its
payload and store the original bytes in the cache under the key,
otherwise the payload is the raw bytes; return the serialized broker
envelope. -/
def translate_to_broker (palm : Bool) (st : PPState) (message_data : Bytes) :
    Except StepError (PPState × Bytes) :=
  let broker_message_key := uuid4 st.uuidCounter
  let st1 : PPState := { st with uuidCounter := st.uuidCounter + 1 }
  if palm then
    match PalmMessage.ParseFromString message_data with
    | none => Except.error StepError.decodeError
    | some palm_message =>
      Except.ok
        ({ st1 with cache := insertA st1.cache broker_message_key message_data },
         BrokerMessage.SerializeToString
           ⟨broker_message_key, palm_message.payload⟩)
  else
    Except.ok
      (st1, BrokerMessage.SerializeToString ⟨broker_message_key, message_data⟩)

/-- PushPullService._translate_from_broker: parse the broker response;
if PALM, fetch the original client envelope from the cache under the
response key, replace its payload with the response payload and
re-serialize; otherwise return the response payload. The cache is read
but never written or deleted from. -/
def translate_from_broker (palm : Bool) (st : PPState) (message_data : Bytes) :
    Except StepError (PPState × Bytes) :=
  match parseBroker message_data with
  | Except.error err => Except.error err
  | Except.ok broker_message =>
  if palm then
    match lookupA st.cache broker_message.key with
    | none => Except.error (StepError.keyError broker_message.key)
    | some cached =>
      match PalmMessage.ParseFromString cached with
      | none => Except.error StepError.decodeError
      | some palm_message =>
        Except.ok
          (st, PalmMessage.SerializeToString
            { palm_message with payload := broker_message.payload })
  else
    Except.ok (st, broker_message.payload)

/-- Observable actions of the PushPullService event loop. -/
inductive SAction where
  | sendBroker : Bytes → SAction
  | recvBroker : Bytes → SAction
  | push : Bytes → SAction
  | pull : Bytes → SAction
  | handleFeedback : Bytes → SAction
  | closeSocket : String → SAction
deriving DecidableEq, Repr

/-- The override hooks of PushPullService, as a record of function
values: scatter multiplies one message, reply_feedback is the value
sent back to the broker after the fan-out. -/
structure ScatterConfig where
  scatter : Bytes → List Bytes
  reply_feedback : Bytes

/-- The default (non-overridden) hooks from the source: scatter yields
the message itself once, reply_feedback returns the raw byte 0. -/
def defaultScatterConfig : ScatterConfig :=
  { scatter := fun message_data => [message_data]
    reply_feedback := Bytes.raw "0" }

/-- The scatter override of the documented master example: yield the
message three times. -/
def masterScatterConfig : ScatterConfig :=
  { defaultScatterConfig with
      scatter := fun message => [message, message, message] }

/-- The inner fan-out of PushPullService.start: for each scattered
element push it, then block for one pull and hand it to
handle_feedback. Returns the trace and the unconsumed pull responses. -/
def fanout : List Bytes → List Bytes → List SAction × List Bytes
  | [], pulls => ([], pulls)
  | s :: _, [] => ([SAction.push s], [])
  | s :: rest, p :: ps =>
    let r := fanout rest ps
    (SAction.push s :: SAction.pull p :: SAction.handleFeedback p :: r.1, r.2)

/-- The message loop of PushPullService.start: receive a message from
the broker, run the fan-out over scatter, then send reply_feedback back
to the broker; runs for the given number of iterations over the queued
broker messages and pull responses. -/
def serviceLoop (cfg : ScatterConfig) :
    List Bytes → List Bytes → Nat → List SAction
  | _, _, 0 => []
  | [], _, Nat.succ _ => []
  | m :: ms, pulls, Nat.succ n =>
    let f := fanout (cfg.scatter m) pulls
    SAction.recvBroker m :: f.1
      ++ SAction.sendBroker cfg.reply_feedback :: serviceLoop cfg ms f.2 n

/-- PushPullService.start: send the initial ready envelope with key 0
and payload 0, then run the message loop. -/
def serviceStart (cfg : ScatterConfig) (ms pulls : List Bytes) (n : Nat) :
    List SAction :=
  SAction.sendBroker (BrokerMessage.SerializeToString ⟨"0", Bytes.raw "0"⟩)
    :: serviceLoop cfg ms pulls n

/-- PushPullService.cleanup: close the push, pull and broker sockets. -/
def serviceCleanup : List SAction :=
  [SAction.closeSocket "push", SAction.closeSocket "pull",
   SAction.closeSocket "broker"]

/-- Number of broker messages consumed by a service trace. -/
def countRecv (acts : List SAction) : Nat :=
  acts.countP (fun a => match a with | SAction.recvBroker _ => true | _ => false)

def c1State : BrokerState :=
  { inbound_components := [("inbound1", ⟨"outbound", true, "inbound1"⟩)]
    available := ["outbound"]
    ledger := []
    buffer := []
    inboundRegistered := true }

def c1Event : Event :=
  Event.inbound "inbound1" (Bytes.brokerMsg "k1" (Bytes.raw "0"))

def c1StateAfter : BrokerState :=
  { inbound_components := [("inbound1", ⟨"outbound", true, "inbound1"⟩)]
    available := []
    ledger := [("k1", "inbound1")]
    buffer := []
    inboundRegistered := false }

def c1Acts : List BAction :=
  [BAction.sendOutbound "outbound" (Bytes.brokerMsg "k1" (Bytes.raw "0"))]

def isSendInbound : BAction → Bool
  | BAction.sendInbound _ _ => true
  | _ => false

def c2State : BrokerState :=
  { inbound_components := []
    available := []
    ledger := [("k", "inbound1")]
    buffer := [("outbound", Bytes.brokerMsg "k2" (Bytes.raw "7"))]
    inboundRegistered := false }

def c2StateAfter : BrokerState :=
  { inbound_components := []
    available := []
    ledger := []
    buffer := []
    inboundRegistered := false }

def c2Feedback : Bytes := Bytes.brokerMsg "k" (Bytes.raw "5")

def c2Acts : List BAction :=
  [BAction.sendOutbound "outbound" (Bytes.brokerMsg "k2" (Bytes.raw "7")),
   BAction.sendInbound "inbound1" (Bytes.raw "5")]

def c4State : BrokerState :=
  { inbound_components := [("inbound2", ⟨"outbound", false, "inbound2"⟩)]
    available := []
    ledger := []
    buffer := [("outbound", Bytes.brokerMsg "k1" (Bytes.raw "1"))]
    inboundRegistered := true }

def c9State : BrokerState :=
  { inbound_components := []
    available := []
    ledger := []
    buffer := []
    inboundRegistered := true }

def c5PP : PPState :=
  { cache := [("k", Bytes.palmMsg "c1" "p" "f" "s" (Bytes.raw "hello"))]
    uuidCounter := 5 }

def c6PP : PPState := { cache := [], uuidCounter := 0 }

theorem lookupA_eraseA_self {α : Type} (l : List (String × α)) (k : String) :
    lookupA (eraseA l k) k = none := by
  induction l with
  | nil => rfl
  | cons p rest ih =>
    obtain ⟨pk, pv⟩ := p
    by_cases h : pk = k
    · have hdrop : eraseA ((pk, pv) :: rest) k = eraseA rest k := by
        simp [eraseA, List.filter_cons, h]
      rw [hdrop]
      exact ih
    · have hkeep : eraseA ((pk, pv) :: rest) k = (pk, pv) :: eraseA rest k := by
        simp [eraseA, List.filter_cons, h]
      rw [hkeep]
      simp only [lookupA, if_neg h]
      exact ih

theorem eraseA_nil_of_nil {α : Type} {l : List (String × α)} (k : String)
    (h : l = []) : eraseA l k = [] := by
  subst h; rfl

theorem lookupA_map_overwrite {α : Type} (l : List (String × α)) (k : String)
    (v : α) (h : (lookupA l k).isSome) :
    lookupA (l.map (fun p => if p.1 = k then (k, v) else p)) k = some v := by
  induction l with
  | nil => simp [lookupA] at h
  | cons p rest ih =>
    obtain ⟨pk, pv⟩ := p
    by_cases hp : pk = k
    · subst hp
      have hifp : (if pk = pk then (pk, v) else (pk, pv)) = (pk, v) := if_pos rfl
      rw [List.map_cons, hifp]
      simp [lookupA]
    · have h2 : (lookupA rest k).isSome := by simpa [lookupA, hp] using h
      simp only [List.map_cons, if_neg hp]
      simp only [lookupA, if_neg hp]
      exact ih h2

theorem lookupA_append_of_none {α : Type} (l : List (String × α)) (k : String)
    (v : α) (h : lookupA l k = none) :
    lookupA (l ++ [(k, v)]) k = some v := by
  induction l with
  | nil => simp [lookupA]
  | cons p rest ih =>
    obtain ⟨pk, pv⟩ := p
    by_cases hp : pk = k
    · simp [lookupA, hp] at h
    · simp only [lookupA, if_neg hp] at h
      simp only [List.cons_append, lookupA, if_neg hp]
      exact ih h

theorem lookupA_insertA_self {α : Type} (l : List (String × α)) (k : String)
    (v : α) : lookupA (insertA l k v) k = some v := by
  unfold insertA
  by_cases h : (lookupA l k).isSome
  · simp only [h, if_true]
    exact lookupA_map_overwrite l k v h
  · simp only [h, if_false]
    exact lookupA_append_of_none l k v (by
      cases hl : lookupA l k
      · rfl
      · simp [hl] at h)

theorem insertA_ne_nil {α : Type} (l : List (String × α)) (k : String) (v : α) :
    insertA l k v ≠ [] := by
  unfold insertA
  by_cases h : (lookupA l k).isSome
  · simp only [h, if_true]
    intro hmap
    rcases List.map_eq_nil_iff.mp hmap with rfl
    simp [lookupA] at h
  · simp only [h, if_false]
    intro happ
    have := List.append_eq_nil.mp happ
    exact absurd this.2 (by simp)

theorem eraseA_ne_nil {α : Type} {l : List (String × α)} {k : String}
    (h : eraseA l k ≠ []) : l ≠ [] := by
  intro hnil
  subst hnil
  exact h rfl

theorem lookupA_ne_nil {α : Type} {l : List (String × α)} {k : String} {v : α}
    (h : lookupA l k = some v) : l ≠ [] := by
  intro hnil
  subst hnil
  cases h

theorem handleOutbound_suspension
    (s s' : BrokerState) (w : String) (fb : Bytes) (acts : List BAction)
    (hinv : suspended s)
    (hstep : handleOutbound s w fb = Except.ok (s', acts)) :
    suspended s' ∧
    (s'.inboundRegistered = true ↔
      s'.available ≠ [] ∧ s'.buffer = [] ∧ s'.ledger = []) := by
  cases hp : parseBroker fb with
  | error err => rw [handleOutbound, hp] at hstep; cases hstep
  | ok bm =>
    rw [handleOutbound, hp] at hstep
    simp only at hstep
    cases hb : lookupA s.buffer w with
    | some md =>
      have hbuf_ne : s.buffer ≠ [] := lookupA_ne_nil hb
      have hreg : s.inboundRegistered = false := hinv (Or.inl hbuf_ne)
      simp only [hb] at hstep
      cases hl : lookupA s.ledger bm.key with
      | some dest =>
        simp only [hl] at hstep
        split at hstep
        case isTrue hc =>
          simp only [Except.ok.injEq, Prod.mk.injEq] at hstep
          obtain ⟨hs, hacts⟩ := hstep
          subst hs
          simp only [Bool.and_eq_true, Bool.not_eq_true', List.isEmpty_iff,
            List.isEmpty_eq_false] at hc
          constructor
          · intro hne
            simp only at hne
            rcases hne with hne | hne
            · exact absurd hc.1.2 hne
            · exact absurd hc.2 hne
          · simp [hc.1.1, hc.1.2, hc.2]
        case isFalse hc =>
          simp only [Except.ok.injEq, Prod.mk.injEq] at hstep
          obtain ⟨hs, hacts⟩ := hstep
          subst hs
          constructor
          · intro _; exact hreg
          · simp only [hreg]
            constructor
            · intro hfalse; cases hfalse
            · intro hrhs
              exact absurd (by
                simp only [Bool.and_eq_true, Bool.not_eq_true', List.isEmpty_iff,
                  List.isEmpty_eq_false]
                exact ⟨⟨hrhs.1, hrhs.2.1⟩, hrhs.2.2⟩) hc
      | none =>
        simp only [hl] at hstep
        split at hstep
        case isTrue hc =>
          simp only [Except.ok.injEq, Prod.mk.injEq] at hstep
          obtain ⟨hs, hacts⟩ := hstep
          subst hs
          simp only [Bool.and_eq_true, Bool.not_eq_true', List.isEmpty_iff,
            List.isEmpty_eq_false] at hc
          constructor
          · intro hne
            rcases hne with hne | hne
            · exact absurd hc.1.2 hne
            · exact absurd hc.2 hne
          · simp [hc.1.1, hc.1.2, hc.2]
        case isFalse hc =>
          simp only [Except.ok.injEq, Prod.mk.injEq] at hstep
          obtain ⟨hs, hacts⟩ := hstep
          subst hs
          constructor
          · intro _; exact hreg
          · simp only [hreg]
            constructor
            · intro hfalse; cases hfalse
            · intro hrhs
              exact absurd (by
                simp only [Bool.and_eq_true, Bool.not_eq_true', List.isEmpty_iff,
                  List.isEmpty_eq_false]
                exact ⟨⟨hrhs.1, hrhs.2.1⟩, hrhs.2.2⟩) hc
    | none =>
      simp only [hb] at hstep
      cases hl : lookupA s.ledger bm.key with
      | some dest =>
        have hled_ne : s.ledger ≠ [] := lookupA_ne_nil hl
        have hreg : s.inboundRegistered = false := hinv (Or.inr hled_ne)
        simp only [hl] at hstep
        split at hstep
        case isTrue hc =>
          simp only [Except.ok.injEq, Prod.mk.injEq] at hstep
          obtain ⟨hs, hacts⟩ := hstep
          subst hs
          simp only [Bool.and_eq_true, Bool.not_eq_true', List.isEmpty_iff,
            List.isEmpty_eq_false] at hc
          constructor
          · intro hne
            rcases hne with hne | hne
            · exact absurd hc.1.2 hne
            · exact absurd hc.2 hne
          · simp [hc.1.1, hc.1.2, hc.2]
        case isFalse hc =>
          simp only [Except.ok.injEq, Prod.mk.injEq] at hstep
          obtain ⟨hs, hacts⟩ := hstep
          subst hs
          constructor
          · intro _; exact hreg
          · simp only [hreg]
            constructor
            · intro hfalse; cases hfalse
            · intro hrhs
              exact absurd (by
                simp only [Bool.and_eq_true, Bool.not_eq_true', List.isEmpty_iff,
                  List.isEmpty_eq_false]
                exact ⟨⟨hrhs.1, hrhs.2.1⟩, hrhs.2.2⟩) hc
      | none =>
        simp only [hl] at hstep
        split at hstep
        case isTrue hc =>
          simp only [Except.ok.injEq, Prod.mk.injEq] at hstep
          obtain ⟨hs, hacts⟩ := hstep
          subst hs
          simp only [Bool.and_eq_true, Bool.not_eq_true', List.isEmpty_iff,
            List.isEmpty_eq_false] at hc
          constructor
          · intro hne
            rcases hne with hne | hne
            · exact absurd hc.1.2 hne
            · exact absurd hc.2 hne
          · simp [hc.1.1, hc.1.2, hc.2]
        case isFalse hc =>
          simp only [Except.ok.injEq, Prod.mk.injEq] at hstep
          obtain ⟨hs, hacts⟩ := hstep
          subst hs
          have hbl : s.buffer ≠ [] ∨ s.ledger ≠ [] := by
            by_contra hno
            push_neg at hno
            apply hc
            simp only [Bool.and_eq_true, Bool.not_eq_true', List.isEmpty_iff,
              List.isEmpty_eq_false]
            exact ⟨⟨by simp, hno.1⟩, hno.2⟩
          have hreg : s.inboundRegistered = false := hinv hbl
          constructor
          · intro _; exact hreg
          · simp only [hreg]
            constructor
            · intro hfalse; cases hfalse
            · intro hrhs
              exact absurd (by
                simp only [Bool.and_eq_true, Bool.not_eq_true', List.isEmpty_iff,
                  List.isEmpty_eq_false]
                exact ⟨⟨hrhs.1, hrhs.2.1⟩, hrhs.2.2⟩) hc

theorem handleInbound_ack_eq
    (s : BrokerState) (c : String) (m : Bytes) (bm : BrokerMessage)
    (reg : Registration)
    (hp : parseBroker m = Except.ok bm)
    (hr : lookupA s.inbound_components c = some reg)
    (hroute : reg.route = "") :
    handleInbound s c m
      = Except.ok (s, [BAction.sendInbound c (Bytes.raw "1")]) := by
  rw [handleInbound, hp]
  simp only [hr, hroute, if_true]

theorem handleInbound_nonblocking_eq
    (s : BrokerState) (c : String) (m : Bytes) (bm : BrokerMessage)
    (reg : Registration)
    (hp : parseBroker m = Except.ok bm)
    (hr : lookupA s.inbound_components c = some reg)
    (hroute : reg.route ≠ "")
    (havail : reg.route ∈ s.available)
    (hblock : reg.block = false) :
    handleInbound s c m = Except.ok
      ({ s with available := s.available.erase reg.route },
       [BAction.sendOutbound reg.route bm.SerializeToString,
        BAction.sendInbound c (Bytes.raw "1")]) := by
  rw [handleInbound, hp]
  simp only [hr, if_neg hroute, if_pos havail, hblock, Bool.not_false, if_pos]

theorem handleInbound_blocking_eq
    (s : BrokerState) (c : String) (m : Bytes) (bm : BrokerMessage)
    (reg : Registration)
    (hp : parseBroker m = Except.ok bm)
    (hr : lookupA s.inbound_components c = some reg)
    (hroute : reg.route ≠ "")
    (havail : reg.route ∈ s.available)
    (hblock : reg.block = true) :
    handleInbound s c m = Except.ok
      ({ s with available := s.available.erase reg.route
                ledger := insertA s.ledger bm.key c
                inboundRegistered := false },
       [BAction.sendOutbound reg.route bm.SerializeToString]) := by
  rw [handleInbound, hp]
  simp only [hr, if_neg hroute, if_pos havail, hblock, Bool.not_true,
    Bool.false_eq_true, if_false]

theorem handleInbound_buffering_eq
    (s : BrokerState) (c : String) (m : Bytes) (bm : BrokerMessage)
    (reg : Registration)
    (hp : parseBroker m = Except.ok bm)
    (hr : lookupA s.inbound_components c = some reg)
    (hroute : reg.route ≠ "")
    (hnavail : reg.route ∉ s.available) :
    handleInbound s c m = Except.ok
      ({ s with buffer := insertA s.buffer reg.route bm.SerializeToString
                inboundRegistered := false },
       []) := by
  rw [handleInbound, hp]
  simp only [hr, if_neg hroute, if_neg hnavail]

theorem handleInbound_keyError
    (s : BrokerState) (c : String) (m : Bytes) (bm : BrokerMessage)
    (hp : parseBroker m = Except.ok bm)
    (hr : lookupA s.inbound_components c = none) :
    handleInbound s c m = Except.error (StepError.keyError c) := by
  rw [handleInbound, hp]
  simp only [hr]

theorem handleInbound_suspension
    (s s' : BrokerState) (c : String) (m : Bytes) (acts : List BAction)
    (hinv : suspended s)
    (hstep : handleInbound s c m = Except.ok (s', acts)) :
    suspended s' := by
  cases hp : parseBroker m with
  | error err => rw [handleInbound, hp] at hstep; cases hstep
  | ok bm =>
    cases hr : lookupA s.inbound_components c with
    | none => rw [handleInbound_keyError s c m bm hp hr] at hstep; cases hstep
    | some reg =>
      by_cases hroute : reg.route = ""
      · rw [handleInbound_ack_eq s c m bm reg hp hr hroute] at hstep
        simp only [Except.ok.injEq, Prod.mk.injEq] at hstep
        obtain ⟨hs, _⟩ := hstep
        subst hs
        exact hinv
      · by_cases havail : reg.route ∈ s.available
        · cases hblock : reg.block with
          | false =>
            rw [handleInbound_nonblocking_eq s c m bm reg hp hr hroute havail
              hblock] at hstep
            simp only [Except.ok.injEq, Prod.mk.injEq] at hstep
            obtain ⟨hs, _⟩ := hstep
            subst hs
            intro hne
            exact hinv hne
          | true =>
            rw [handleInbound_blocking_eq s c m bm reg hp hr hroute havail
              hblock] at hstep
            simp only [Except.ok.injEq, Prod.mk.injEq] at hstep
            obtain ⟨hs, _⟩ := hstep
            subst hs
            intro _
            rfl
        · rw [handleInbound_buffering_eq s c m bm reg hp hr hroute havail]
            at hstep
          simp only [Except.ok.injEq, Prod.mk.injEq] at hstep
          obtain ⟨hs, _⟩ := hstep
          subst hs
          intro _
          rfl

/-- C1: whenever the broker's ledger or single-slot buffer is non-empty,
the inbound side is suspended and the broker accepts no inbound event;
suspension occurs at every blocking dispatch and at every buffering, and
after handling an outbound event inbound listening is re-enabled exactly
when the available-worker set is non-empty and both the buffer and the
ledger are empty. -/
theorem broker_inbound_suspension
    (s s' : BrokerState) (e : Event) (acts : List BAction)
    (hinv : suspended s)
    (hstep : brokerStep s e = Except.ok (s', acts)) :
    suspended s'
    ∧ (∀ c m, (s'.buffer ≠ [] ∨ s'.ledger ≠ []) →
        Event.admissible s' (Event.inbound c m) = false)
    ∧ (∀ w f, e = Event.outbound w f →
        (s'.inboundRegistered = true ↔
          s'.available ≠ [] ∧ s'.buffer = [] ∧ s'.ledger = []))
    ∧ (∀ c m reg, e = Event.inbound c m →
        lookupA s.inbound_components c = some reg → reg.route ≠ "" →
        ((reg.route ∈ s.available → reg.block = true →
            s'.inboundRegistered = false)
          ∧ (reg.route ∉ s.available → s'.inboundRegistered = false))) := by
  cases e with
  | outbound w fb =>
    obtain ⟨h1, h2⟩ := handleOutbound_suspension s s' w fb acts hinv hstep
    refine ⟨h1, ?_, ?_, ?_⟩
    · intro c m hne
      exact h1 hne
    · intro w0 f0 _
      exact h2
    · intro c m reg heq
      cases heq
  | inbound c m =>
    have h1 : suspended s' := handleInbound_suspension s s' c m acts hinv hstep
    refine ⟨h1, ?_, ?_, ?_⟩
    · intro c0 m0 hne
      exact h1 hne
    · intro w0 f0 heq
      cases heq
    · intro c0 m0 reg heq hr hroute
      cases heq
      cases hp : parseBroker m with
      | error err =>
        rw [brokerStep, handleInbound, hp] at hstep
        cases hstep
      | ok bm =>
        constructor
        · intro havail hblock
          rw [brokerStep, handleInbound_blocking_eq s c m bm reg hp hr
            hroute havail hblock] at hstep
          simp only [Except.ok.injEq, Prod.mk.injEq] at hstep
          obtain ⟨hs, _⟩ := hstep
          subst hs
          rfl
        · intro hnavail
          rw [brokerStep, handleInbound_buffering_eq s c m bm reg hp hr
            hroute hnavail] at hstep
          simp only [Except.ok.injEq, Prod.mk.injEq] at hstep
          obtain ⟨hs, _⟩ := hstep
          subst hs
          rfl
  | unknownSocket =>
    rw [brokerStep] at hstep
    simp only [Except.ok.injEq, Prod.mk.injEq] at hstep
    obtain ⟨hs, _⟩ := hstep
    subst hs
    refine ⟨hinv, ?_, ?_, ?_⟩
    · intro c m hne
      exact hinv hne
    · intro w0 f0 heq
      cases heq
    · intro c0 m0 reg heq
      cases heq





/-- Witness for C1 at a concrete blocking dispatch: after it the
ledger is non-empty and an inbound event is not admissible. -/
theorem broker_inbound_suspension_witness :
    Event.admissible c1StateAfter
      (Event.inbound "inbound2" (Bytes.raw "9")) = false :=
  (broker_inbound_suspension c1State c1StateAfter c1Event c1Acts
      (by intro hne; rcases hne with h | h <;> exact absurd rfl h)
      (by rfl)).2.1
    "inbound2" (Bytes.raw "9") (Or.inr (by decide))


/-- C2: on an outbound event carrying feedback, a buffered message for
the worker is popped and dispatched immediately and the worker is not
added to available, otherwise the worker is appended to available; a
ledgered key is popped and exactly one reply carrying the feedback
payload goes to the stored inbound identity. -/
theorem broker_outbound_feedback
    (s s' : BrokerState) (w : String) (fb : Bytes) (bm : BrokerMessage)
    (acts : List BAction)
    (hparse : parseBroker fb = Except.ok bm)
    (hstep : handleOutbound s w fb = Except.ok (s', acts)) :
    (∀ md, lookupA s.buffer w = some md →
        BAction.sendOutbound w md ∈ acts
        ∧ s'.buffer = eraseA s.buffer w
        ∧ s'.available = s.available)
    ∧ (lookupA s.buffer w = none →
        s'.available = s.available ++ [w] ∧ s'.buffer = s.buffer)
    ∧ (∀ dest, lookupA s.ledger bm.key = some dest →
        acts.filter isSendInbound = [BAction.sendInbound dest bm.payload]
        ∧ s'.ledger = eraseA s.ledger bm.key
        ∧ lookupA s'.ledger bm.key = none)
    ∧ (lookupA s.ledger bm.key = none →
        s'.ledger = s.ledger ∧ acts.filter isSendInbound = []) := by
  rw [handleOutbound, hparse] at hstep
  simp only at hstep
  cases hb : lookupA s.buffer w with
  | some md =>
    simp only [hb] at hstep
    cases hl : lookupA s.ledger bm.key with
    | some dest =>
      simp only [hl] at hstep
      split at hstep <;>
      · simp only [Except.ok.injEq, Prod.mk.injEq] at hstep
        obtain ⟨hs, hacts⟩ := hstep
        subst hs
        subst hacts
        refine ⟨?_, ?_, ?_, ?_⟩
        · intro md0 h
          cases h
          exact ⟨by simp, rfl, rfl⟩
        · intro h
          cases h
        · intro dest0 h
          cases h
          exact ⟨rfl, rfl, lookupA_eraseA_self _ _⟩
        · intro h
          cases h
    | none =>
      simp only [hl] at hstep
      split at hstep <;>
      · simp only [Except.ok.injEq, Prod.mk.injEq] at hstep
        obtain ⟨hs, hacts⟩ := hstep
        subst hs
        subst hacts
        refine ⟨?_, ?_, ?_, ?_⟩
        · intro md0 h
          cases h
          exact ⟨by simp, rfl, rfl⟩
        · intro h
          cases h
        · intro dest0 h
          cases h
        · intro _
          exact ⟨rfl, rfl⟩
  | none =>
    simp only [hb] at hstep
    cases hl : lookupA s.ledger bm.key with
    | some dest =>
      simp only [hl] at hstep
      split at hstep <;>
      · simp only [Except.ok.injEq, Prod.mk.injEq] at hstep
        obtain ⟨hs, hacts⟩ := hstep
        subst hs
        subst hacts
        refine ⟨?_, ?_, ?_, ?_⟩
        · intro md0 h
          cases h
        · intro _
          exact ⟨rfl, rfl⟩
        · intro dest0 h
          cases h
          exact ⟨rfl, rfl, lookupA_eraseA_self _ _⟩
        · intro h
          cases h
    | none =>
      simp only [hl] at hstep
      split at hstep <;>
      · simp only [Except.ok.injEq, Prod.mk.injEq] at hstep
        obtain ⟨hs, hacts⟩ := hstep
        subst hs
        subst hacts
        refine ⟨?_, ?_, ?_, ?_⟩
        · intro md0 h
          cases h
        · intro _
          exact ⟨rfl, rfl⟩
        · intro dest0 h
          cases h
        · intro _
          exact ⟨rfl, rfl⟩





/-- Witness for C2 at a concrete outbound event that drains the buffer
and answers the ledger: the buffered message is re-dispatched and the
blocked producer receives exactly one reply with the feedback payload. -/
theorem broker_outbound_feedback_witness :
    BAction.sendOutbound "outbound" (Bytes.brokerMsg "k2" (Bytes.raw "7"))
      ∈ c2Acts
    ∧ c2Acts.filter isSendInbound
        = [BAction.sendInbound "inbound1" (Bytes.raw "5")]
    ∧ lookupA c2StateAfter.ledger "k" = none := by
  have h := broker_outbound_feedback c2State c2StateAfter "outbound"
    c2Feedback ⟨"k", Bytes.raw "5"⟩ c2Acts (by rfl) (by rfl)
  exact ⟨(h.1 (Bytes.brokerMsg "k2" (Bytes.raw "7")) rfl).1,
    (h.2.2.1 "inbound1" rfl).1, (h.2.2.1 "inbound1" rfl).2.2⟩

/-- C3: an inbound event whose sender's registration routes to an
available worker with block true removes the worker from available,
forwards the envelope to it, ledgers the key to the inbound identity,
sends no acknowledgement to the producer, and suspends the inbound
side. -/
theorem broker_blocking_inbound_dispatch
    (s : BrokerState) (c : String) (m : Bytes) (bm : BrokerMessage)
    (reg : Registration)
    (hp : parseBroker m = Except.ok bm)
    (hr : lookupA s.inbound_components c = some reg)
    (hroute : reg.route ≠ "")
    (havail : reg.route ∈ s.available)
    (hblock : reg.block = true) :
    handleInbound s c m = Except.ok
      ({ s with available := s.available.erase reg.route
                ledger := insertA s.ledger bm.key c
                inboundRegistered := false },
       [BAction.sendOutbound reg.route bm.SerializeToString])
    ∧ lookupA (insertA s.ledger bm.key c) bm.key = some c
    ∧ (∀ d payload,
        BAction.sendInbound d payload ∉
          [BAction.sendOutbound reg.route bm.SerializeToString]) := by
  refine ⟨handleInbound_blocking_eq s c m bm reg hp hr hroute havail hblock,
    lookupA_insertA_self _ _ _, ?_⟩
  intro d payload hmem
  simp at hmem

/-- Witness for C3 at the concrete blocking dispatch of the source
test. -/
theorem broker_blocking_inbound_dispatch_witness :
    handleInbound c1State "inbound1" (Bytes.brokerMsg "k1" (Bytes.raw "0"))
      = Except.ok
          ({ c1State with
              available := c1State.available.erase "outbound"
              ledger := insertA c1State.ledger "k1" "inbound1"
              inboundRegistered := false },
           [BAction.sendOutbound "outbound" (Bytes.brokerMsg "k1" (Bytes.raw "0"))])
    ∧ lookupA (insertA c1State.ledger "k1" "inbound1") "k1" = some "inbound1"
    ∧ BAction.sendInbound "inbound1" (Bytes.raw "1") ∉
        [BAction.sendOutbound "outbound" (Bytes.brokerMsg "k1" (Bytes.raw "0"))] := by
  have h := broker_blocking_inbound_dispatch c1State "inbound1"
    (Bytes.brokerMsg "k1" (Bytes.raw "0")) ⟨"k1", Bytes.raw "0"⟩
    ⟨"outbound", true, "inbound1"⟩ rfl rfl (by decide) (by decide) rfl
  exact ⟨h.1, h.2.1, h.2.2 "inbound1" (Bytes.raw "1")⟩


/-- C4 counterexample: with a message already buffered for the busy
worker, a second inbound message for it is not dropped and no critical
log is emitted; instead the slot is overwritten, losing the previously
buffered message. -/
theorem broker_buffer_overwrite_cex :
    handleInbound c4State "inbound2" (Bytes.brokerMsg "k3" (Bytes.raw "3"))
      = Except.ok
          ({ inbound_components :=
               [("inbound2", ⟨"outbound", false, "inbound2"⟩)]
             available := []
             ledger := []
             buffer := [("outbound", Bytes.brokerMsg "k3" (Bytes.raw "3"))]
             inboundRegistered := false },
           [])
    ∧ lookupA c4State.buffer "outbound"
        = some (Bytes.brokerMsg "k1" (Bytes.raw "1")) := by
  constructor <;> rfl

/-- C4 (amended): routing an inbound message to a busy worker whose
buffer slot is occupied silently overwrites the slot with the new
message (the earlier message is lost), emits no action and no critical
log, suspends the inbound side, and the iteration completes normally. -/
theorem broker_buffer_overwrite
    (s : BrokerState) (c : String) (m : Bytes) (bm : BrokerMessage)
    (reg : Registration) (old : Bytes)
    (hp : parseBroker m = Except.ok bm)
    (hr : lookupA s.inbound_components c = some reg)
    (hroute : reg.route ≠ "")
    (hnavail : reg.route ∉ s.available)
    (hold : lookupA s.buffer reg.route = some old) :
    handleInbound s c m = Except.ok
      ({ s with buffer := insertA s.buffer reg.route bm.SerializeToString
                inboundRegistered := false },
       [])
    ∧ lookupA (insertA s.buffer reg.route bm.SerializeToString) reg.route
        = some bm.SerializeToString :=
  ⟨handleInbound_buffering_eq s c m bm reg hp hr hroute hnavail,
   lookupA_insertA_self _ _ _⟩

/-- Witness for the amended C4 at a concrete occupied slot. -/
theorem broker_buffer_overwrite_witness :
    handleInbound c4State "inbound2" (Bytes.brokerMsg "k3" (Bytes.raw "3"))
      = Except.ok
          ({ c4State with
              buffer := insertA c4State.buffer "outbound"
                (Bytes.brokerMsg "k3" (Bytes.raw "3"))
              inboundRegistered := false },
           [])
    ∧ lookupA (insertA c4State.buffer "outbound"
          (Bytes.brokerMsg "k3" (Bytes.raw "3"))) "outbound"
        = some (Bytes.brokerMsg "k3" (Bytes.raw "3")) :=
  broker_buffer_overwrite c4State "inbound2"
    (Bytes.brokerMsg "k3" (Bytes.raw "3")) ⟨"k3", Bytes.raw "3"⟩
    ⟨"outbound", false, "inbound2"⟩ (Bytes.brokerMsg "k1" (Bytes.raw "1"))
    rfl rfl (by decide) (by decide) rfl


/-- C9 counterexample: an inbound event from an identity with no
registration makes the whole loop abort with a KeyError instead of
logging at critical level and continuing with the next iteration. -/
theorem broker_unknown_inbound_cex :
    brokerRun c9State
      [Event.inbound "ghost" (Bytes.brokerMsg "k" (Bytes.raw "0")),
       Event.unknownSocket] 2
      = Except.error (StepError.keyError "ghost") := by
  rfl

/-- C9 (amended): an inbound event from an identity absent from the
inbound registrations raises an uncaught KeyError at the registration
lookup, for every parseable envelope; no critical log is emitted and
the broker loop terminates with that error instead of continuing with
the next iteration. -/
theorem broker_unknown_inbound_crash
    (s : BrokerState) (c : String) (m : Bytes) (rest : List Event) (n : Nat)
    (hr : lookupA s.inbound_components c = none) :
    ∀ bm, parseBroker m = Except.ok bm →
      handleInbound s c m = Except.error (StepError.keyError c)
      ∧ brokerRun s (Event.inbound c m :: rest) (n + 1)
          = Except.error (StepError.keyError c) := by
  intro bm hp
  have h1 := handleInbound_keyError s c m bm hp hr
  refine ⟨h1, ?_⟩
  simp [brokerRun, brokerStep, h1]

/-- Witness for the amended C9 at a concrete unregistered identity. -/
theorem broker_unknown_inbound_crash_witness :
    handleInbound c9State "ghost" (Bytes.brokerMsg "k" (Bytes.raw "0"))
      = Except.error (StepError.keyError "ghost")
    ∧ brokerRun c9State
        [Event.inbound "ghost" (Bytes.brokerMsg "k" (Bytes.raw "0")),
         Event.unknownSocket] (1 + 1)
        = Except.error (StepError.keyError "ghost") :=
  broker_unknown_inbound_crash c9State "ghost"
    (Bytes.brokerMsg "k" (Bytes.raw "0")) [Event.unknownSocket] 1 rfl
    ⟨"k", Bytes.raw "0"⟩ rfl

theorem handleOutbound_no_close
    (s s' : BrokerState) (w : String) (fb : Bytes) (acts : List BAction)
    (nm : String)
    (hstep : handleOutbound s w fb = Except.ok (s', acts)) :
    BAction.close nm ∉ acts := by
  cases hp : parseBroker fb with
  | error err => rw [handleOutbound, hp] at hstep; cases hstep
  | ok bm =>
    rw [handleOutbound, hp] at hstep
    simp only at hstep
    cases hb : lookupA s.buffer w with
    | some md =>
      simp only [hb] at hstep
      cases hl : lookupA s.ledger bm.key with
      | some dest =>
        simp only [hl] at hstep
        split at hstep <;>
        · simp only [Except.ok.injEq, Prod.mk.injEq] at hstep
          obtain ⟨_, hacts⟩ := hstep
          subst hacts
          simp
      | none =>
        simp only [hl] at hstep
        split at hstep <;>
        · simp only [Except.ok.injEq, Prod.mk.injEq] at hstep
          obtain ⟨_, hacts⟩ := hstep
          subst hacts
          simp
    | none =>
      simp only [hb] at hstep
      cases hl : lookupA s.ledger bm.key with
      | some dest =>
        simp only [hl] at hstep
        split at hstep <;>
        · simp only [Except.ok.injEq, Prod.mk.injEq] at hstep
          obtain ⟨_, hacts⟩ := hstep
          subst hacts
          simp
      | none =>
        simp only [hl] at hstep
        split at hstep <;>
        · simp only [Except.ok.injEq, Prod.mk.injEq] at hstep
          obtain ⟨_, hacts⟩ := hstep
          subst hacts
          simp

theorem handleInbound_no_close
    (s s' : BrokerState) (c : String) (m : Bytes) (acts : List BAction)
    (nm : String)
    (hstep : handleInbound s c m = Except.ok (s', acts)) :
    BAction.close nm ∉ acts := by
  cases hp : parseBroker m with
  | error err => rw [handleInbound, hp] at hstep; cases hstep
  | ok bm =>
    cases hr : lookupA s.inbound_components c with
    | none => rw [handleInbound_keyError s c m bm hp hr] at hstep; cases hstep
    | some reg =>
      by_cases hroute : reg.route = ""
      · rw [handleInbound_ack_eq s c m bm reg hp hr hroute] at hstep
        simp only [Except.ok.injEq, Prod.mk.injEq] at hstep
        obtain ⟨_, hacts⟩ := hstep
        subst hacts
        simp
      · by_cases havail : reg.route ∈ s.available
        · cases hblock : reg.block with
          | false =>
            rw [handleInbound_nonblocking_eq s c m bm reg hp hr hroute havail
              hblock] at hstep
            simp only [Except.ok.injEq, Prod.mk.injEq] at hstep
            obtain ⟨_, hacts⟩ := hstep
            subst hacts
            simp
          | true =>
            rw [handleInbound_blocking_eq s c m bm reg hp hr hroute havail
              hblock] at hstep
            simp only [Except.ok.injEq, Prod.mk.injEq] at hstep
            obtain ⟨_, hacts⟩ := hstep
            subst hacts
            simp
        · rw [handleInbound_buffering_eq s c m bm reg hp hr hroute havail]
            at hstep
          simp only [Except.ok.injEq, Prod.mk.injEq] at hstep
          obtain ⟨_, hacts⟩ := hstep
          subst hacts
          simp

theorem brokerStep_no_close
    (s s' : BrokerState) (e : Event) (acts : List BAction) (nm : String)
    (hstep : brokerStep s e = Except.ok (s', acts)) :
    BAction.close nm ∉ acts := by
  cases e with
  | outbound w fb => exact handleOutbound_no_close s s' w fb acts nm hstep
  | inbound c m => exact handleInbound_no_close s s' c m acts nm hstep
  | unknownSocket =>
    rw [brokerStep] at hstep
    simp only [Except.ok.injEq, Prod.mk.injEq] at hstep
    obtain ⟨_, hacts⟩ := hstep
    subst hacts
    simp

/-- C8 counterexample: a complete run of the loop consumes its
iterations and exits but its action trace closes neither the inbound
nor the outbound endpoint. -/
theorem broker_run_no_close_cex :
    brokerRun (BrokerState.initial []) [Event.unknownSocket] 1
      = Except.ok (BrokerState.initial [],
          [BAction.logCritical "Socket not known."], [])
    ∧ BAction.close "inbound" ∉ [BAction.logCritical "Socket not known."]
    ∧ BAction.close "outbound" ∉ [BAction.logCritical "Socket not known."] := by
  refine ⟨rfl, ?_, ?_⟩ <;> simp

/-- C8 (amended): when no iteration raises, the broker loop consumes
exactly max_messages pending events and then exits; its action trace
contains no close action, so the endpoints are left open. -/
theorem broker_run_exact_iterations
    (n : Nat) (s s' : BrokerState) (events rem : List Event)
    (acts : List BAction)
    (hlen : n ≤ events.length)
    (hrun : brokerRun s events n = Except.ok (s', acts, rem)) :
    rem = List.drop n events ∧ ∀ nm, BAction.close nm ∉ acts := by
  induction n generalizing s s' events acts rem with
  | zero =>
    rw [brokerRun] at hrun
    simp only [Except.ok.injEq, Prod.mk.injEq] at hrun
    obtain ⟨_, hacts, hrem⟩ := hrun
    subst hacts
    subst hrem
    exact ⟨rfl, by intro nm; simp⟩
  | succ n ih =>
    cases events with
    | nil => simp at hlen
    | cons e rest =>
      rw [brokerRun] at hrun
      cases hst : brokerStep s e with
      | error err => rw [hst] at hrun; cases hrun
      | ok pair =>
        obtain ⟨s1, acts1⟩ := pair
        simp only [hst] at hrun
        cases hrec : brokerRun s1 rest n with
        | error err => simp only [hrec] at hrun; cases hrun
        | ok triple =>
          obtain ⟨s2, acts2, rem2⟩ := triple
          simp only [hrec] at hrun
          simp only [Except.ok.injEq, Prod.mk.injEq] at hrun
          obtain ⟨hs2, hacts, hrem⟩ := hrun
          subst hacts
          subst hrem
          have hlen2 : n ≤ rest.length := by
            simpa using Nat.succ_le_succ_iff.mp (by simpa using hlen)
          obtain ⟨hdrop, hnc⟩ := ih s1 s2 rest rem2 acts2 hlen2 hrec
          refine ⟨by simpa using hdrop, ?_⟩
          intro nm
          rw [List.mem_append]
          rintro (hmem | hmem)
          · exact brokerStep_no_close s s1 e acts1 nm hst hmem
          · exact hnc nm hmem

/-- Witness for the amended C8: a one-iteration run consumes its single
event and closes nothing. -/
theorem broker_run_exact_iterations_witness :
    ([] : List Event) = List.drop 1 [Event.unknownSocket]
    ∧ BAction.close "inbound" ∉ [BAction.logCritical "Socket not known."] := by
  have h := broker_run_exact_iterations 1 (BrokerState.initial [])
    (BrokerState.initial []) [Event.unknownSocket] []
    [BAction.logCritical "Socket not known."] (by decide) (by rfl)
  exact ⟨h.1, h.2 "inbound"⟩


/-- C5 counterexample: after the PALM reply translation the component
state is returned unchanged, so the cache entry under the response key
is still present instead of having been deleted. -/
theorem translate_from_broker_cex :
    translate_from_broker true c5PP (Bytes.brokerMsg "k" (Bytes.raw "HELLO"))
      = Except.ok (c5PP, Bytes.palmMsg "c1" "p" "f" "s" (Bytes.raw "HELLO"))
    ∧ lookupA c5PP.cache "k"
        = some (Bytes.palmMsg "c1" "p" "f" "s" (Bytes.raw "hello")) := by
  constructor <;> rfl

/-- C5 (amended): for a PALM component whose cache holds the original
client envelope under the response key, the reply bytes are that
envelope with only its payload replaced by the response payload,
re-serialized, every other field byte-equal to the original; for a
non-PALM component the reply bytes are exactly the response payload,
for every component state and so whatever the cache holds; the cache
entry is read but not deleted - the state comes back unchanged in both
modes. -/
theorem translate_from_broker_spec
    (st : PPState) (md : Bytes) :
    (∀ bm cached pm, parseBroker md = Except.ok bm →
        lookupA st.cache bm.key = some cached →
        PalmMessage.ParseFromString cached = some pm →
        translate_from_broker true st md
          = Except.ok (st,
              Bytes.palmMsg pm.client pm.pipeline pm.function pm.stage
                bm.payload))
    ∧ (∀ bm, parseBroker md = Except.ok bm →
        translate_from_broker false st md = Except.ok (st, bm.payload)) := by
  constructor
  · intro bm cached pm hparse hcache hpm
    rw [translate_from_broker, hparse]
    simp only [if_true, hcache, hpm]
    rfl
  · intro bm hparse
    rw [translate_from_broker, hparse]
    simp

/-- Witness for the amended C5: the PALM half at a concrete cached
envelope, the non-PALM half at a component whose cache was never
written. -/
theorem translate_from_broker_spec_witness :
    translate_from_broker true c5PP (Bytes.brokerMsg "k" (Bytes.raw "Y"))
      = Except.ok (c5PP, Bytes.palmMsg "c1" "p" "f" "s" (Bytes.raw "Y"))
    ∧ translate_from_broker false c6PP (Bytes.brokerMsg "k" (Bytes.raw "Y"))
      = Except.ok (c6PP, Bytes.raw "Y") := by
  have h1 := translate_from_broker_spec c5PP
    (Bytes.brokerMsg "k" (Bytes.raw "Y"))
  have h2 := translate_from_broker_spec c6PP
    (Bytes.brokerMsg "k" (Bytes.raw "Y"))
  exact ⟨h1.1 ⟨"k", Bytes.raw "Y"⟩
      (Bytes.palmMsg "c1" "p" "f" "s" (Bytes.raw "hello"))
      ⟨"c1", "p", "f", "s", Bytes.raw "hello"⟩ rfl rfl rfl,
    h2.2 ⟨"k", Bytes.raw "Y"⟩ rfl⟩

/-- The modelled uuid4 supply yields strings whose length records the
draw index. -/
theorem uuid4_length (n : Nat) : (uuid4 n).length = n + 1 := by
  induction n with
  | zero => rfl
  | succ n ih =>
    rw [uuid4, String.length_append, ih]
    have h1 : "u".length = 1 := rfl
    omega

/-- Distinct draws of the uuid4 supply give distinct keys. -/
theorem uuid4_injective : Function.Injective uuid4 := by
  intro a b h
  have hlen := congrArg String.length h
  rw [uuid4_length, uuid4_length] at hlen
  omega


/-- C6: every request is keyed with the next draw of the injective
uuid4 supply and the counter advances, so keys are fresh; when PALM,
the client envelope is parsed, its payload used, and the original bytes
stored in the cache under the new key; when not PALM, the broker
payload equals the raw message bytes unconditionally - also for binary
messages that are no client envelope - and the cache is not written
to. -/
theorem translate_to_broker_spec
    (st : PPState) (md : Bytes) :
    (∀ pm, PalmMessage.ParseFromString md = some pm →
        translate_to_broker true st md = Except.ok
          ({ cache := insertA st.cache (uuid4 st.uuidCounter) md
             uuidCounter := st.uuidCounter + 1 },
           Bytes.brokerMsg (uuid4 st.uuidCounter) pm.payload))
    ∧ translate_to_broker false st md = Except.ok
        ({ st with uuidCounter := st.uuidCounter + 1 },
         Bytes.brokerMsg (uuid4 st.uuidCounter) md)
    ∧ (∀ pm, PalmMessage.ParseFromString md = some pm →
        lookupA (insertA st.cache (uuid4 st.uuidCounter) md)
          (uuid4 st.uuidCounter) = some md)
    ∧ Function.Injective uuid4 := by
  refine ⟨?_, ?_, fun pm _ => lookupA_insertA_self _ _ _, uuid4_injective⟩
  · intro pm hpm
    rw [translate_to_broker]
    simp only [if_true, hpm]
    rfl
  · rw [translate_to_broker]
    simp [BrokerMessage.SerializeToString]

/-- Witness for C6: the PALM half at a concrete client envelope and
empty cache, the non-PALM half at raw binary bytes that leave the cache
empty. -/
theorem translate_to_broker_spec_witness :
    translate_to_broker true c6PP
        (Bytes.palmMsg "c1" "p" "f" "s" (Bytes.raw "x"))
      = Except.ok
          ({ cache := insertA c6PP.cache (uuid4 0)
               (Bytes.palmMsg "c1" "p" "f" "s" (Bytes.raw "x"))
             uuidCounter := 1 },
           Bytes.brokerMsg (uuid4 0) (Bytes.raw "x"))
    ∧ translate_to_broker false c6PP (Bytes.raw "x")
      = Except.ok ({ c6PP with uuidCounter := 1 },
          Bytes.brokerMsg (uuid4 0) (Bytes.raw "x"))
    ∧ lookupA (insertA c6PP.cache (uuid4 0)
          (Bytes.palmMsg "c1" "p" "f" "s" (Bytes.raw "x"))) (uuid4 0)
        = some (Bytes.palmMsg "c1" "p" "f" "s" (Bytes.raw "x")) := by
  have h1 := translate_to_broker_spec c6PP
    (Bytes.palmMsg "c1" "p" "f" "s" (Bytes.raw "x"))
  have h2 := translate_to_broker_spec c6PP (Bytes.raw "x")
  exact ⟨h1.1 ⟨"c1", "p", "f", "s", Bytes.raw "x"⟩ rfl, h2.2.1,
    h1.2.2.1 ⟨"c1", "p", "f", "s", Bytes.raw "x"⟩ rfl⟩

/-- The fan-out trace interleaves one push, one pull and one
handle_feedback per scattered element, consuming one pull response per
element. -/
theorem fanout_spec (ss pulls : List Bytes) (h : ss.length ≤ pulls.length) :
    fanout ss pulls
      = ((ss.zip (pulls.take ss.length)).flatMap
          (fun sp => [SAction.push sp.1, SAction.pull sp.2,
                      SAction.handleFeedback sp.2]),
         pulls.drop ss.length) := by
  induction ss generalizing pulls with
  | nil => simp [fanout]
  | cons a rest ih =>
    cases pulls with
    | nil => simp at h
    | cons p ps =>
      have h2 : rest.length ≤ ps.length := by simpa using h
      simp only [fanout, ih ps h2]
      simp [List.zip]

theorem countRecv_fanout (ss ps : List Bytes) :
    countRecv (fanout ss ps).1 = 0 := by
  induction ss generalizing ps with
  | nil => rfl
  | cons a rest ih =>
    cases ps with
    | nil => rfl
    | cons p ps2 =>
      simp only [fanout, countRecv, List.countP_cons] at ih ⊢
      simp [ih ps2]

theorem countRecv_serviceLoop (cfg : ScatterConfig) (n : Nat) :
    ∀ ms pulls : List Bytes, countRecv (serviceLoop cfg ms pulls n) ≤ n := by
  induction n with
  | zero => intro ms pulls; simp [serviceLoop, countRecv]
  | succ n ih =>
    intro ms pulls
    cases ms with
    | nil => simp [serviceLoop, countRecv]
    | cons m ms2 =>
      simp only [serviceLoop, countRecv, List.countP_cons, List.countP_append]
      have hf := countRecv_fanout (cfg.scatter m) pulls
      simp only [countRecv] at hf
      have hr := ih ms2 (fanout (cfg.scatter m) pulls).2
      simp only [countRecv] at hr
      simp [hf]
      omega

/-- C7: for each broker message received, every scattered element is
pushed and then exactly one pull response is received and passed to
handle_feedback before the next push; after the last element exactly
one reply_feedback value is sent back to the broker; and the loop
consumes at most max_messages broker messages. -/
theorem scatter_loop_spec
    (cfg : ScatterConfig) (m : Bytes) (ms pulls : List Bytes) (n : Nat)
    (h : (cfg.scatter m).length ≤ pulls.length) :
    serviceLoop cfg (m :: ms) pulls (n + 1)
      = SAction.recvBroker m
          :: ((cfg.scatter m).zip (pulls.take (cfg.scatter m).length)).flatMap
              (fun sp => [SAction.push sp.1, SAction.pull sp.2,
                          SAction.handleFeedback sp.2])
          ++ SAction.sendBroker cfg.reply_feedback
            :: serviceLoop cfg ms (pulls.drop (cfg.scatter m).length) n
    ∧ countRecv (serviceLoop cfg (m :: ms) pulls (n + 1)) ≤ n + 1 := by
  constructor
  · simp only [serviceLoop, fanout_spec (cfg.scatter m) pulls h]
  · exact countRecv_serviceLoop cfg (n + 1) (m :: ms) pulls

/-- Witness for C7: the documented three-way scatter override on one
message and a pool answering three pulls. -/
theorem scatter_loop_spec_witness :
    serviceLoop masterScatterConfig [Bytes.raw "m"]
        [Bytes.raw "r1", Bytes.raw "r2", Bytes.raw "r3"] 1
      = [SAction.recvBroker (Bytes.raw "m"),
         SAction.push (Bytes.raw "m"), SAction.pull (Bytes.raw "r1"),
         SAction.handleFeedback (Bytes.raw "r1"),
         SAction.push (Bytes.raw "m"), SAction.pull (Bytes.raw "r2"),
         SAction.handleFeedback (Bytes.raw "r2"),
         SAction.push (Bytes.raw "m"), SAction.pull (Bytes.raw "r3"),
         SAction.handleFeedback (Bytes.raw "r3"),
         SAction.sendBroker (Bytes.raw "0")]
    ∧ countRecv (serviceLoop masterScatterConfig [Bytes.raw "m"]
        [Bytes.raw "r1", Bytes.raw "r2", Bytes.raw "r3"] 1) ≤ 1 := by
  have h := scatter_loop_spec masterScatterConfig (Bytes.raw "m") []
    [Bytes.raw "r1", Bytes.raw "r2", Bytes.raw "r3"] 0 (by decide)
  exact ⟨by rw [h.1]; rfl, h.2⟩

theorem fanout_no_sendBroker (ss : List Bytes) (b : Bytes) :
    ∀ ps : List Bytes, SAction.sendBroker b ∉ (fanout ss ps).1 := by
  induction ss with
  | nil => intro ps; simp [fanout]
  | cons a rest ih =>
    intro ps
    cases ps with
    | nil => simp [fanout]
    | cons p ps2 =>
      simp only [fanout, List.mem_cons]
      push_neg
      exact ⟨by simp, by simp, by simp, ih ps2⟩

theorem serviceLoop_sendBroker (cfg : ScatterConfig) (n : Nat) :
    ∀ (ms pulls : List Bytes) (b : Bytes),
      SAction.sendBroker b ∈ serviceLoop cfg ms pulls n →
      b = cfg.reply_feedback := by
  induction n with
  | zero => intro ms pulls b hmem; simp [serviceLoop] at hmem
  | succ n ih =>
    intro ms pulls b hmem
    cases ms with
    | nil => simp [serviceLoop] at hmem
    | cons m ms2 =>
      simp only [serviceLoop, List.mem_cons, List.mem_append] at hmem
      rcases hmem with (hmem | hmem) | hmem | hmem
      · cases hmem
      · exact absurd hmem (fanout_no_sendBroker (cfg.scatter m) b pulls)
      · cases hmem
        rfl
      · exact ih ms2 (fanout (cfg.scatter m) pulls).2 b hmem

/-- C10: any value the message loop sends to the broker equals
reply_feedback, which under the default override is the raw byte 0; it
is not a serialized broker envelope, so it carries no correlation
key. -/
theorem scatter_reply_is_reply_feedback
    (ms pulls : List Bytes) (n : Nat) (b : Bytes)
    (hmem : SAction.sendBroker b
      ∈ serviceLoop defaultScatterConfig ms pulls n) :
    b = defaultScatterConfig.reply_feedback
    ∧ defaultScatterConfig.reply_feedback = Bytes.raw "0"
    ∧ BrokerMessage.ParseFromString defaultScatterConfig.reply_feedback
        = none :=
  ⟨serviceLoop_sendBroker defaultScatterConfig n ms pulls b hmem, rfl, rfl⟩

/-- Witness for C10: the single broker send of a default one-message
loop is the raw byte 0 and is not parseable as a broker envelope. -/
theorem scatter_reply_is_reply_feedback_witness :
    Bytes.raw "0" = defaultScatterConfig.reply_feedback
    ∧ defaultScatterConfig.reply_feedback = Bytes.raw "0"
    ∧ BrokerMessage.ParseFromString defaultScatterConfig.reply_feedback
        = none :=
  scatter_reply_is_reply_feedback [Bytes.raw "a"] [Bytes.raw "b"] 1
    (Bytes.raw "0") (by decide)
